import Mathlib

/-!
Verification of the phasmowatch pointer-chain monitor (src/main.py) against its
specification. The Python source is shallowly embedded: the memory accessor
(pymem) is a record of fallible functions, exceptions caught by the source's
try/except blocks are modelled with Option, Python's unbounded integers with
Int/Nat, and byte strings with List Nat.
-/

namespace Phasmowatch

/-! ## Bytes and integers

`int.from_bytes(bs, "little")` and `struct.unpack("<i", raw)[0]` from the
source (main.py lines 157, 161, 286, 306). -/

/-- Little-endian byte decoding: models Python `int.from_bytes(bs, "little")`. -/
def fromBytesLE (bs : List Nat) : Nat :=
  bs.foldr (fun b acc => b + 256 * acc) 0

/-- Reinterpret a natural as a signed 32-bit integer (two's complement). -/
def toSigned32 (n : Nat) : Int :=
  let m := n % 4294967296
  if m < 2147483648 then (m : Int) else (m : Int) - 4294967296

/-- Models `struct.unpack("<i", raw)[0]`: requires exactly 4 bytes (otherwise
`struct.error` is raised, which the callers catch), decodes little-endian
signed 32-bit. -/
def unpack_i32 (bs : List Nat) : Option Int :=
  if bs.length = 4 then some (toSigned32 (fromBytesLE bs)) else none

/-- The 8 little-endian bytes of a value, for building concrete memory images. -/
def le8 (n : Nat) : List Nat :=
  (List.range 8).map (fun i => n / 256 ^ i % 256)

/-! ## The remote memory accessor (pymem boundary)

`process.module_from_name` + `lpBaseOfDll` and `pm.read_bytes` (main.py lines
153-156): both fallible, failures modelled as `none` (the Python calls raise
and every caller catches). Addresses are `Int` because Python integers are
unbounded and offsets parsed from the file pass through `int(..., 16)` which
admits signs. -/

structure Mem where
  moduleBase : String → Option Int
  readBytes : Int → Nat → Option (List Nat)

/-! ## Text processing helpers

Python string operations used by `parse_address_spec` and `parse_offsets`
(main.py lines 132-144), modelled over `List Char`. -/

/-- The whitespace set of Python `str.strip()` (ASCII part). -/
def isPySpace (c : Char) : Bool :=
  c == ' ' || c == '\t' || c == '\n' || c == '\r' || c == '\x0b' || c == '\x0c'

/-- Models Python `s.strip()`. -/
def trimChars (cs : List Char) : List Char :=
  ((cs.dropWhile isPySpace).reverse.dropWhile isPySpace).reverse

/-- Models `s.replace('"', "")`: a one-character pattern with empty
replacement removes every occurrence. -/
def removeQuotes (cs : List Char) : List Char :=
  cs.filter (fun c => c != '\"')

/-- Models `s.replace("0x", "")`: left-to-right, non-overlapping removal of
every occurrence of the two-character pattern. -/
def remove0x : List Char → List Char
  | '0' :: 'x' :: rest => remove0x rest
  | c :: rest => c :: remove0x rest
  | [] => []

/-- Models `s.split("+", 1)` followed by unpacking into exactly two names:
yields the text before and after the first `+`, or fails (ValueError) when
no `+` occurs. -/
def splitOnceAux (c : Char) : List Char → Option (List Char × List Char)
  | [] => none
  | x :: xs =>
    if x = c then some ([], xs)
    else
      match splitOnceAux c xs with
      | none => none
      | some (l, r) => some (x :: l, r)

/-- Value of one hexadecimal digit. -/
def hexVal? (c : Char) : Option Nat :=
  if '0' ≤ c ∧ c ≤ '9' then some (c.toNat - '0'.toNat)
  else if 'a' ≤ c ∧ c ≤ 'f' then some (c.toNat - 'a'.toNat + 10)
  else if 'A' ≤ c ∧ c ≤ 'F' then some (c.toNat - 'A'.toNat + 10)
  else none

def hexAccum : Nat → List Char → Option Nat
  | acc, [] => some acc
  | acc, c :: cs =>
    match hexVal? c with
    | none => none
    | some d => hexAccum (16 * acc + d) cs

/-- A non-empty run of hex digits, most significant first. -/
def hexDigitsVal : List Char → Option Nat
  | [] => none
  | c :: cs => hexAccum 0 (c :: cs)

/-- Drop one optional `0x` / `0X` marker. -/
def dropHexMark : List Char → List Char
  | '0' :: 'x' :: rest => rest
  | '0' :: 'X' :: rest => rest
  | cs => cs

/-- Models CPython `int(s, 16)` (without digit-group underscores): optional
surrounding whitespace, optional sign, optional `0x`/`0X` marker, then at
least one hex digit; anything else raises ValueError (here: `none`). -/
def pyIntHexChars (cs : List Char) : Option Int :=
  let t := trimChars cs
  match t with
  | '+' :: rest => (hexDigitsVal (dropHexMark rest)).map (fun n => (n : Int))
  | '-' :: rest => (hexDigitsVal (dropHexMark rest)).map (fun n => -(n : Int))
  | _ => (hexDigitsVal (dropHexMark t)).map (fun n => (n : Int))

/-! ## Chain definition loader (main.py lines 132-184) -/

/-- `parse_address_spec` (main.py lines 132-135):
`s = spec.strip().replace('"', "")`, split on the first `+` (ValueError when
absent), module part stripped, offset part
`int(off.strip().replace("0x", ""), 16)`. -/
def parse_address_spec (spec : String) : Option (String × Int) :=
  let s := removeQuotes (trimChars spec.toList)
  match splitOnceAux '+' s with
  | none => none
  | some (m, off) =>
    (pyIntHexChars (remove0x (trimChars off))).map
      (fun n => (String.mk (trimChars m), n))

/-- One `<Offset>` XML node: `n.text` is `None` for an empty element. -/
structure OffsetNode where
  text : Option String

/-- `parse_offsets` (main.py lines 138-144): for each node,
`txt = (n.text or "").strip().lower().replace("0x", "")`; blank nodes are
skipped; non-blank text must parse as hex (`int(txt, 16)`), a failure raises
out of the whole loader. -/
def parse_offsets : List OffsetNode → Option (List Int)
  | [] => some []
  | n :: rest =>
    let txt := remove0x ((trimChars (n.text.getD "").toList).map Char.toLower)
    match txt with
    | [] => parse_offsets rest
    | c :: cs =>
      match pyIntHexChars (c :: cs) with
      | none => none
      | some v =>
        match parse_offsets rest with
        | none => none
        | some vs => some (v :: vs)

/-- A loaded pointer-chain definition: `(module_name, base_offset, offsets)`
with `offsets` stored in resolution order (reversed from file order). -/
structure ChainDef where
  module_name : String
  base_offset : Int
  offsets : List Int
deriving DecidableEq, Repr

/-- One `<CheatEntry>` of the XML file as lxml presents it to the loader:
`entry.findtext("Address")` (None when the element is missing) and
`entry.find("Offsets")` with its `<Offset>` children. -/
structure CheatEntry where
  address : Option String
  offsetsNode : Option (List OffsetNode)

/-- `load_entries` (main.py lines 168-184), after XML parsing: per entry the
offsets are parsed and reversed first, then entries whose address text is
missing or empty are skipped (`if not addr_spec: continue`), and the address
spec is parsed; any parse failure aborts the whole load (the exception
propagates). Kept entries preserve file order. -/
def load_entries : List CheatEntry → Option (List ChainDef)
  | [] => some []
  | e :: rest =>
    let offsStep : Option (List Int) :=
      match e.offsetsNode with
      | none => some []
      | some ns => (parse_offsets ns).map List.reverse
    match offsStep with
    | none => none
    | some offs =>
      match e.address with
      | none => load_entries rest
      | some a =>
        if a = "" then load_entries rest
        else
          match parse_address_spec a with
          | none => none
          | some (mn, bo) =>
            (load_entries rest).map (fun ds => ⟨mn, bo, offs⟩ :: ds)

/-! ## Pointer chain resolver (main.py lines 147-165) -/

/-- The intermediate pointer chase `for off in offsets[:-1]` (main.py lines
159-161): read 8 bytes at `addr + off`, reinterpret little-endian as the new
`addr`. -/
def chase (pm : Mem) : Int → List Int → Option Int
  | addr, [] => some addr
  | addr, off :: rest =>
    match pm.readBytes (addr + off) 8 with
    | none => none
    | some bs => chase pm ((fromBytesLE bs : Nat) : Int) rest

/-- `resolve_pointer` (main.py lines 147-165): module lookup, 8-byte read at
`module_base + base_offset`, chase all offsets but the last, add the last
offset (0 when the list is empty) with no further read. The source wraps the
body in `try/except Exception: return None`; every fallible step is
Option-valued here, so any failure yields `none` and nothing propagates. -/
def resolve_pointer (pm : Mem) (module_name : String) (base_offset : Int)
    (offsets : List Int) : Option Int :=
  match pm.moduleBase module_name with
  | none => none
  | some mb =>
    match pm.readBytes (mb + base_offset) 8 with
    | none => none
    | some bs =>
      match chase pm ((fromBytesLE bs : Nat) : Int) offsets.dropLast with
      | none => none
      | some addr => some (addr + offsets.getLast?.getD 0)

/-- A fully successful pointer chase: every 8-byte read along the offset list
succeeded. Used to state that resolution is all-or-nothing. -/
inductive Chased (pm : Mem) : Int → List Int → Int → Prop
  | nil (a : Int) : Chased pm a [] a
  | cons (a off : Int) (bs : List Nat) (rest : List Int) (r : Int) :
      pm.readBytes (a + off) 8 = some bs →
      Chased pm ((fromBytesLE bs : Nat) : Int) rest r →
      Chased pm a (off :: rest) r

/-! ## Stabilization aggregator (main.py lines 280-316) -/

/-- The 4-byte signed read used per resolved address and for the winner
(main.py lines 285-286 and 305-306): `pm.read_bytes(addr, 4)` then
`struct.unpack("<i", raw)[0]`, failures caught. -/
def readI32 (pm : Mem) (a : Int) : Option Int :=
  (pm.readBytes a 4).bind unpack_i32

/-- The per-cycle results list (main.py lines 280-290): for each definition,
resolve; `if addr:` keeps only a non-None, non-zero address; then the 4-byte
value read, a failure skipping the entry entirely (`except: continue`). -/
def collectResults (pm : Mem) (entries : List ChainDef) : List (Int × Int) :=
  entries.filterMap (fun d =>
    match resolve_pointer pm d.module_name d.base_offset d.offsets with
    | none => none
    | some addr =>
      if addr = 0 then none
      else
        match readI32 pm addr with
        | none => none
        | some v => some (addr, v))

/-- The largest occurrence count in the list (0 for the empty list). -/
def maxCount (l : List Int) : Nat :=
  (l.map (fun a => l.count a)).foldr max 0

/-- Models `Counter(addrs).most_common(1)[0]` (main.py lines 301-302).
CPython's `Counter` keys are ordered by first occurrence, and
`most_common(1)` takes `max` over the items by count, which returns the
first maximal item; so the result is the earliest element of `addrs` whose
occurrence count is maximal, paired with that count. `none` for the empty
list (there the subscript `[0]` would raise IndexError, a case the caller
has already excluded). -/
def most_common1 (l : List Int) : Option (Int × Nat) :=
  (l.find? (fun b => l.count b == maxCount l)).map (fun b => (b, l.count b))

/-- Index of the first occurrence of `a` (length of the list when absent). -/
def firstIdx (a : Int) : List Int → Nat
  | [] => 0
  | b :: t => if b = a then 0 else firstIdx a t + 1

/-- The stabilized result shown per successful cycle (main.py line 316):
`value at best_addr, count/len(results)`. -/
structure StabilizedResult where
  winning_address : Int
  value : Int
  agreement_count : Nat
  total_resolved : Nat
deriving DecidableEq, Repr

/-- Outcome of one ATTACHED cycle body (main.py lines 279-318). -/
inductive CycleOutcome
  | noConsensus
  | readFailed
  | success (r : StabilizedResult)
deriving DecidableEq, Repr

/-- One resolve-all-then-aggregate cycle (main.py lines 280-316): collect
results; empty results print "No valid pointers found" and retry
(`noConsensus`); otherwise vote with `Counter.most_common(1)[0]`, re-read the
winner's 4-byte value (`readFailed` when that read fails), and produce the
stabilized result with `agreement_count = count` and
`total_resolved = len(results)`. -/
def runCycle (pm : Mem) (entries : List ChainDef) : CycleOutcome :=
  let results := collectResults pm entries
  if results.isEmpty then CycleOutcome.noConsensus
  else
    match most_common1 (results.map Prod.fst) with
    | none => CycleOutcome.noConsensus
    | some (best, cnt) =>
      match readI32 pm best with
      | none => CycleOutcome.readFailed
      | some value => CycleOutcome.success ⟨best, value, cnt, results.length⟩

/-! ## Poll loop resource trace (main.py lines 268-333)

Only the events relevant to the accessor-handle lifecycle are recorded:
`Pymem(PROCESS_NAME)` (acquire, line 270), each `time.sleep(1)` tick of a
refresh wait loop (lines 294-297, 309-312, 322-325), and
`pm.close_process()` in the `finally` block (lines 327-333). -/

inductive Ev
  | acquire
  | waitTick
  | release
deriving DecidableEq, Repr

/-- One refresh wait: `for _ in range(max(1, REFRESH_INTERVAL)): time.sleep(1)`
with the running flag held true throughout. -/
def waitLoop (interval : Nat) : List Ev :=
  List.replicate (max 1 interval) Ev.waitTick

/-- Event trace of one ATTACHED iteration of the main loop (main.py lines
268-333): the handle is acquired, then the `try` body runs one cycle; every
outcome branch of the body ends with a refresh wait loop *inside* the `try`
(lines 294, 309, 322) — unless, on the success path, one of the display calls
raises first (`displayRaises`, modelling an exception between lines 315 and
321) — and the `finally` block closes the handle last, also on `continue`
and on an escaping exception. -/
def attachedTrace (pm : Mem) (entries : List ChainDef) (interval : Nat)
    (displayRaises : Bool) : List Ev :=
  Ev.acquire ::
    (match runCycle pm entries with
     | CycleOutcome.success _ => if displayRaises then [] else waitLoop interval
     | _ => waitLoop interval)
    ++ [Ev.release]

/-! ## Concrete memory images for the testable scenarios -/

/-- Memory image of the spec's resolver scenario: module `Core` at `0x1000`,
an 8-byte pointer `0x2000` at `0x1010`, an 8-byte pointer `0x3000` at
`0x2004`, and nothing else mapped (in particular nothing at `0x3008`, so a
read there would fail). -/
def memC4 : Mem :=
  ⟨fun n => if n = "Core" then some 0x1000 else none,
   fun a len =>
     if a = 0x1010 ∧ len = 8 then some (le8 0x2000)
     else if a = 0x2004 ∧ len = 8 then some (le8 0x3000)
     else none⟩

/-- Memory image where one chain resolves to `0x5000` whose 4-byte value read
fails (unmapped), and another resolves to `0x6000` holding the value 7. -/
def memB : Mem :=
  ⟨fun n => if n = "Core" then some 0x1000 else none,
   fun a len =>
     if a = 0x1010 ∧ len = 8 then some (le8 0x5000)
     else if a = 0x1020 ∧ len = 8 then some (le8 0x6000)
     else if a = 0x6000 ∧ len = 4 then some [7, 0, 0, 0]
     else none⟩

def entriesB : List ChainDef :=
  [⟨"Core", 0x10, []⟩, ⟨"Core", 0x20, []⟩]

/-- Memory image where one chain resolves to the final address 0 (the pointer
stored at `0x1030` is 0 and the offset list is empty) and another resolves to
`0x6000` holding the value 7. -/
def memD : Mem :=
  ⟨fun n => if n = "Core" then some 0x1000 else none,
   fun a len =>
     if a = 0x1030 ∧ len = 8 then some (le8 0)
     else if a = 0x1020 ∧ len = 8 then some (le8 0x6000)
     else if a = 0x6000 ∧ len = 4 then some [7, 0, 0, 0]
     else none⟩

def entriesD : List ChainDef :=
  [⟨"Core", 0x30, []⟩, ⟨"Core", 0x20, []⟩]

/-! ## Helper lemmas -/

lemma chase_eq_some_iff (pm : Mem) :
    ∀ (l : List Int) (a r : Int), chase pm a l = some r ↔ Chased pm a l r := by
  intro l
  induction l with
  | nil =>
    intro a r
    constructor
    · intro h
      have ha : a = r := by simpa [chase] using h
      exact ha ▸ Chased.nil a
    · intro h
      cases h
      rfl
  | cons off rest ih =>
    intro a r
    constructor
    · intro h
      cases hb : pm.readBytes (a + off) 8 with
      | none => rw [chase, hb] at h; cases h
      | some bs =>
        rw [chase, hb] at h
        exact Chased.cons a off bs rest r hb ((ih _ r).mp h)
    · intro h
      cases h with
      | cons _ _ bs _ _ hb hc =>
        rw [chase, hb]
        exact (ih _ r).mpr hc

lemma le_foldrMax (ns : List Nat) (x : Nat) (hx : x ∈ ns) : x ≤ ns.foldr max 0 := by
  induction ns with
  | nil => cases hx
  | cons a t ih =>
    rcases List.mem_cons.mp hx with h | h
    · subst h; exact le_max_left _ _
    · exact le_trans (ih h) (le_max_right _ _)

lemma foldrMax_mem (ns : List Nat) (h : ns ≠ []) : ns.foldr max 0 ∈ ns := by
  induction ns with
  | nil => exact absurd rfl h
  | cons a t ih =>
    cases t with
    | nil => simp
    | cons b u =>
      have hm := ih (by simp)
      rw [List.foldr_cons]
      rcases max_cases a ((b :: u).foldr max 0) with ⟨he, _⟩ | ⟨he, _⟩
      · rw [he]; exact List.mem_cons_self a _
      · rw [he]; exact List.mem_cons_of_mem a hm

lemma count_le_maxCount (l : List Int) (b : Int) (hb : b ∈ l) :
    l.count b ≤ maxCount l :=
  le_foldrMax _ _ (List.mem_map.mpr ⟨b, hb, rfl⟩)

lemma maxCount_attained (l : List Int) (h : l ≠ []) :
    ∃ b ∈ l, l.count b = maxCount l := by
  have hmem : maxCount l ∈ l.map (fun a => l.count a) :=
    foldrMax_mem _ (by simpa using h)
  rcases List.mem_map.mp hmem with ⟨b, hb, hc⟩
  exact ⟨b, hb, hc⟩

lemma most_common1_isSome (l : List Int) (h : l ≠ []) :
    (most_common1 l).isSome = true := by
  rcases maxCount_attained l h with ⟨b, hb, hc⟩
  have hf : (l.find? (fun b => l.count b == maxCount l)).isSome := by
    rw [List.find?_isSome]
    exact ⟨b, hb, by simp [hc]⟩
  unfold most_common1
  rcases Option.isSome_iff_exists.mp hf with ⟨x, hx⟩
  simp [hx]

lemma most_common1_spec (l : List Int) (a : Int) (c : Nat)
    (h : most_common1 l = some (a, c)) :
    c = l.count a ∧ l.count a = maxCount l ∧
      ∃ l₁ l₂, l = l₁ ++ a :: l₂ ∧ ∀ x ∈ l₁, l.count x ≠ maxCount l := by
  unfold most_common1 at h
  cases hf : l.find? (fun b => l.count b == maxCount l) with
  | none => rw [hf] at h; cases h
  | some b =>
    rw [hf] at h
    have hba : b = a ∧ l.count b = c := by simpa using h
    rcases hba with ⟨rfl, hc⟩
    rcases List.find?_eq_some.mp hf with ⟨hp, l₁, l₂, hsplit, hprev⟩
    refine ⟨hc.symm, by simpa using hp, l₁, l₂, hsplit, ?_⟩
    intro x hx
    have := hprev x hx
    simpa using this

lemma firstIdx_cons_self (a : Int) (t : List Int) : firstIdx a (a :: t) = 0 := by
  simp [firstIdx]

lemma firstIdx_append_of_not_mem (a : Int) (l₁ l₂ : List Int) (h : a ∉ l₁) :
    firstIdx a (l₁ ++ l₂) = l₁.length + firstIdx a l₂ := by
  induction l₁ with
  | nil => simp
  | cons b t ih =>
    have hba : ¬(b = a) := fun e => h (by rw [← e]; exact List.mem_cons_self b t)
    have ht : a ∉ t := fun hm => h (List.mem_cons_of_mem b hm)
    have h1 : firstIdx a ((b :: t) ++ l₂) = firstIdx a (t ++ l₂) + 1 := by
      rw [List.cons_append]
      simp [firstIdx, hba]
    rw [h1, ih ht, List.length_cons]
    omega

lemma mem_collectResults (pm : Mem) (entries : List ChainDef) (a v : Int) :
    (a, v) ∈ collectResults pm entries ↔
      ∃ d ∈ entries,
        resolve_pointer pm d.module_name d.base_offset d.offsets = some a ∧
        a ≠ 0 ∧ readI32 pm a = some v := by
  unfold collectResults
  rw [List.mem_filterMap]
  constructor
  · rintro ⟨d, hd, hf⟩
    refine ⟨d, hd, ?_⟩
    cases hr : resolve_pointer pm d.module_name d.base_offset d.offsets with
    | none => simp [hr] at hf
    | some addr =>
      by_cases h0 : addr = 0
      · simp [hr, h0] at hf
      · cases hv : readI32 pm addr with
        | none => simp [hr, h0, hv] at hf
        | some v0 =>
          simp only [hr, h0, hv, if_false] at hf
          have : addr = a ∧ v0 = v := by simpa using hf
          rcases this with ⟨rfl, rfl⟩
          exact ⟨rfl, h0, hv⟩
  · rintro ⟨d, hd, hr, h0, hv⟩
    exact ⟨d, hd, by simp [hr, h0, hv]⟩

lemma runCycle_noConsensus_iff (pm : Mem) (entries : List ChainDef) :
    runCycle pm entries = CycleOutcome.noConsensus ↔
      collectResults pm entries = [] := by
  by_cases he : collectResults pm entries = []
  · simp [runCycle, he]
  · have hne : (collectResults pm entries).map Prod.fst ≠ [] := by simpa using he
    obtain ⟨⟨best, cnt⟩, hmc⟩ :=
      Option.isSome_iff_exists.mp (most_common1_isSome _ hne)
    have hie : (collectResults pm entries).isEmpty = false := by
      simpa [List.isEmpty_iff] using he
    cases hv : readI32 pm best with
    | none => simp [runCycle, hie, hmc, hv, he]
    | some value => simp [runCycle, hie, hmc, hv, he]

lemma runCycle_success_elim (pm : Mem) (entries : List ChainDef)
    (r : StabilizedResult) (h : runCycle pm entries = CycleOutcome.success r) :
    collectResults pm entries ≠ [] ∧
      r.total_resolved = (collectResults pm entries).length := by
  by_cases he : collectResults pm entries = []
  · rw [runCycle_noConsensus_iff pm entries |>.mpr he] at h
    cases h
  · refine ⟨he, ?_⟩
    have hne : (collectResults pm entries).map Prod.fst ≠ [] := by simpa using he
    obtain ⟨⟨best, cnt⟩, hmc⟩ :=
      Option.isSome_iff_exists.mp (most_common1_isSome _ hne)
    have hie : (collectResults pm entries).isEmpty = false := by
      simpa [List.isEmpty_iff] using he
    cases hv : readI32 pm best with
    | none => simp [runCycle, hie, hmc, hv] at h
    | some value =>
      simp only [runCycle, hie, hmc, hv, Bool.false_eq_true, if_false] at h
      have hr : (⟨best, value, cnt, (collectResults pm entries).length⟩ :
          StabilizedResult) = r := by
        injection h
      rw [← hr]

lemma mem_of_mem_dropWhile (p : Char → Bool) :
    ∀ (cs : List Char) (a : Char), a ∈ cs.dropWhile p → a ∈ cs := by
  intro cs
  induction cs with
  | nil => intro a h; simp [List.dropWhile] at h
  | cons c t ih =>
    intro a h
    by_cases hc : p c
    · rw [List.dropWhile_cons, if_pos hc] at h
      exact List.mem_cons_of_mem c (ih a h)
    · rw [List.dropWhile_cons, if_neg hc] at h
      exact h

lemma mem_trimChars (cs : List Char) (a : Char) (h : a ∈ trimChars cs) :
    a ∈ cs := by
  unfold trimChars at h
  have h1 := List.mem_reverse.mp h
  have h2 := mem_of_mem_dropWhile _ _ _ h1
  have h3 := List.mem_reverse.mp h2
  exact mem_of_mem_dropWhile _ _ _ h3

lemma splitOnceAux_none (c : Char) (cs : List Char) (h : c ∉ cs) :
    splitOnceAux c cs = none := by
  induction cs with
  | nil => rfl
  | cons x t ih =>
    have hx : ¬(x = c) := fun e => h (by rw [← e]; exact List.mem_cons_self x t)
    rw [splitOnceAux, if_neg hx, ih (fun hm => h (List.mem_cons_of_mem x hm))]

/-! ## The claims -/

/-- C1 (corrected by this counterexample): the claim states that a
successfully resolved address whose 4-byte value read fails still appears
among the tallied addresses and is counted in `total_resolved`. In `memB`
the first definition of `entriesB` resolves to `0x5000`, the 4-byte read
there fails, yet the cycle's results list is `[(0x6000, 7)]`: `0x5000` is
absent from the tally and `total_resolved = 1`, not 2. -/
theorem c1_counterexample :
    resolve_pointer memB "Core" 0x10 [] = some 0x5000 ∧
    memB.readBytes 0x5000 4 = none ∧
    collectResults memB entriesB = [(0x6000, 7)] ∧
    runCycle memB entriesB = CycleOutcome.success ⟨0x6000, 7, 1, 1⟩ := by
  refine ⟨by decide, by decide, by decide, by decide⟩

/-- C1 (amended): a resolved address whose 4-byte value read fails is dropped
entirely — an `(address, value)` pair enters the cycle's results exactly when
the chain resolved, the address is non-zero, and the value read succeeded;
and `total_resolved` counts exactly those surviving pairs. -/
theorem c1_value_read_required :
    (∀ (pm : Mem) (entries : List ChainDef) (a v : Int),
      (a, v) ∈ collectResults pm entries ↔
        ∃ d ∈ entries,
          resolve_pointer pm d.module_name d.base_offset d.offsets = some a ∧
          a ≠ 0 ∧ readI32 pm a = some v) ∧
    (∀ (pm : Mem) (entries : List ChainDef) (r : StabilizedResult),
      runCycle pm entries = CycleOutcome.success r →
        r.total_resolved = (collectResults pm entries).length) :=
  ⟨fun pm entries a v => mem_collectResults pm entries a v,
   fun pm entries r h => (runCycle_success_elim pm entries r h).2⟩

/-- C2 (corrected by this counterexample): the claim states the accessor
handle is never held across the refresh wait interval. On the success path
(with the running flag true and no display exception) the trace of one
ATTACHED iteration is `acquire`, then the full refresh wait, then `release`:
every wait tick happens strictly between the acquire and the release, i.e.
while the handle is held. -/
theorem c2_counterexample :
    attachedTrace memB entriesB 30 false =
      Ev.acquire :: List.replicate 30 Ev.waitTick ++ [Ev.release] ∧
    Ev.waitTick ∈
      (attachedTrace memB entriesB 30 false).takeWhile
        (fun e => e != Ev.release) := by
  refine ⟨by decide, by decide⟩

/-- C2 (amended): in every ATTACHED iteration the handle is acquired first
and released exactly once, as the last event — even when the cycle body
raises partway through (`displayRaises`), because the release sits in a
`finally` block — but when the body completes, the refresh wait ticks occur
before the release, so the handle IS held across the wait interval. -/
theorem c2_scoped_release :
    ∀ (pm : Mem) (entries : List ChainDef) (interval : Nat)
      (displayRaises : Bool),
      (attachedTrace pm entries interval displayRaises).head? =
          some Ev.acquire ∧
      (attachedTrace pm entries interval displayRaises).getLast? =
          some Ev.release ∧
      (attachedTrace pm entries interval displayRaises).count Ev.release = 1 ∧
      (displayRaises = false →
        attachedTrace pm entries interval displayRaises =
          Ev.acquire :: waitLoop interval ++ [Ev.release]) := by
  intro pm entries interval displayRaises
  have hbody : ∃ body : List Ev,
      attachedTrace pm entries interval displayRaises =
        Ev.acquire :: body ++ [Ev.release] ∧
      Ev.release ∉ body ∧
      (displayRaises = false → body = waitLoop interval) := by
    unfold attachedTrace
    cases hc : runCycle pm entries with
    | noConsensus =>
      exact ⟨waitLoop interval, rfl, by simp [waitLoop, List.mem_replicate],
        fun _ => rfl⟩
    | readFailed =>
      exact ⟨waitLoop interval, rfl, by simp [waitLoop, List.mem_replicate],
        fun _ => rfl⟩
    | success r =>
      cases displayRaises with
      | false =>
        exact ⟨waitLoop interval, by simp, by simp [waitLoop, List.mem_replicate],
          fun _ => rfl⟩
      | true =>
        exact ⟨[], by simp, by simp, fun h => by cases h⟩
  rcases hbody with ⟨body, htr, hnr, hwl⟩
  rw [htr]
  refine ⟨rfl, ?_, ?_, ?_⟩
  · rw [show Ev.acquire :: body ++ [Ev.release] =
        (Ev.acquire :: body) ++ [Ev.release] from rfl]
    exact List.getLast?_concat _
  · have hb : body.count Ev.release = 0 := List.count_eq_zero.mpr hnr
    simp [List.count_cons, List.count_append, hb]
  · intro hdr
    rw [hwl hdr]

/-- C3: the vote (`Counter(addrs).most_common(1)[0]`) always succeeds on a
non-empty address list; it returns an address of maximal occurrence count
paired with that count, and on ties the returned address is the one whose
first occurrence is earliest in the list; concretely the 2-2 tie
`[0xAAAA, 0xBBBB, 0xAAAA, 0xBBBB]` is won by `0xAAAA`, and
`[0x3008, 0x3008, 0x4000]` is won by `0x3008` with agreement count 2 out of
3 resolved addresses. -/
theorem c3_vote :
    (∀ l : List Int, l ≠ [] → (most_common1 l).isSome = true) ∧
    (∀ (l : List Int) (a : Int) (c : Nat), most_common1 l = some (a, c) →
      c = l.count a ∧ (∀ b ∈ l, l.count b ≤ c) ∧
      (∀ b ∈ l, l.count b = c → firstIdx a l ≤ firstIdx b l)) ∧
    most_common1 [0xAAAA, 0xBBBB, 0xAAAA, 0xBBBB] = some (0xAAAA, 2) ∧
    most_common1 [0x3008, 0x3008, 0x4000] = some (0x3008, 2) ∧
    ([0x3008, 0x3008, 0x4000] : List Int).length = 3 := by
  refine ⟨most_common1_isSome, ?_, by decide, by decide, by decide⟩
  intro l a c h
  rcases most_common1_spec l a c h with ⟨hca, hmax, l₁, l₂, hsplit, hprev⟩
  refine ⟨hca, ?_, ?_⟩
  · intro b hb
    rw [hca, hmax]
    exact count_le_maxCount l b hb
  · intro b _ hbc
    have hbmax : l.count b = maxCount l := by rw [hbc, hca, hmax]
    have hbnot : b ∉ l₁ := fun hm => hprev b hm hbmax
    have hanot : a ∉ l₁ := fun hm => hprev a hm hmax
    have hia : firstIdx a l = l₁.length := by
      rw [hsplit, firstIdx_append_of_not_mem a l₁ (a :: l₂) hanot,
        firstIdx_cons_self]
      omega
    have hib : l₁.length ≤ firstIdx b l := by
      rw [hsplit, firstIdx_append_of_not_mem b l₁ (a :: l₂) hbnot]
      omega
    omega

/-- C4: with an empty offset list the resolver returns exactly the 8-byte
little-endian pointer read at `module_base + base_offset` (the final offset
added is 0, with no further dereference); and in the spec's concrete
scenario — module `Core` at `0x1000`, base offset `0x10`, pointer `0x2000`
stored at `0x1010`, resolution-order offsets `[0x4, 0x8]`, pointer `0x3000`
stored at `0x2004` — the final address is `0x3000 + 0x8 = 0x3008`. `memC4`
maps nothing at `0x3008`, so the successful result also shows the last
offset is added rather than dereferenced. -/
theorem c4_resolver :
    (∀ (pm : Mem) (n : String) (b : Int),
      resolve_pointer pm n b [] =
        ((pm.moduleBase n).bind (fun mb => pm.readBytes (mb + b) 8)).map
          (fun bs => ((fromBytesLE bs : Nat) : Int))) ∧
    resolve_pointer memC4 "Core" 0x10 [0x4, 0x8] = some 0x3008 := by
  refine ⟨?_, by decide⟩
  intro pm n b
  cases hm : pm.moduleBase n with
  | none => simp [resolve_pointer, hm]
  | some mb =>
    cases hr : pm.readBytes (mb + b) 8 with
    | none => simp [resolve_pointer, hm, hr]
    | some bs => simp [resolve_pointer, hm, hr, chase]

/-- C5: for any entry whose offsets parse to `offs` and whose address spec
parses to `(mn, bo)`, the loader stores the definition with `offs.reverse`;
`load_entries` is unfolded on a one-entry file. -/
theorem c5_reversal (a : String) (ns : List OffsetNode) (offs : List Int)
    (mn : String) (bo : Int)
    (h1 : parse_offsets ns = some offs)
    (h2 : parse_address_spec a = some (mn, bo))
    (h3 : ¬(a = "")) :
    load_entries [⟨some a, some ns⟩] = some [⟨mn, bo, offs.reverse⟩] := by
  unfold load_entries
  simp [h1, h2, h3, load_entries]

/-- C5 (witness): the spec's concrete case — file-order offsets
`[0x8, 0x4]` with address `Core+0x10` load as the definition with
resolution-order offsets `[0x4, 0x8]`. -/
theorem c5_reversal_witness :
    load_entries [⟨some "Core+0x10", some [⟨some "0x8"⟩, ⟨some "0x4"⟩]⟩] =
      some [⟨"Core", 0x10, [0x4, 0x8]⟩] := by
  have h := c5_reversal "Core+0x10" [⟨some "0x8"⟩, ⟨some "0x4"⟩] [0x8, 0x4]
    "Core" 0x10 (by decide) (by decide) (by decide)
  simpa using h

/-- C6: `"Core+0x1A2B"` parses to `("Core", 0x1A2B)`; `"Core + 1A2B"` (no
`0x` marker, extra spaces) parses to the same pair after trimming; and every
input string that contains no `+` fails to parse (the `ValueError` from
unpacking `split("+", 1)`, reported as `ParseError` by the spec). -/
theorem c6_parse :
    parse_address_spec "Core+0x1A2B" = some ("Core", 0x1A2B) ∧
    parse_address_spec "Core + 1A2B" = some ("Core", 0x1A2B) ∧
    ∀ s : String, '+' ∉ s.toList → parse_address_spec s = none := by
  refine ⟨by decide, by decide, ?_⟩
  intro s hs
  have hnp : '+' ∉ removeQuotes (trimChars s.toList) := by
    intro hmem
    have h1 : '+' ∈ trimChars s.toList := List.mem_of_mem_filter hmem
    exact hs (mem_trimChars _ _ h1)
  have hsplit : splitOnceAux '+' (removeQuotes (trimChars s.data)) = none :=
    splitOnceAux_none _ _ hnp
  simp [parse_address_spec, hsplit]

/-- C6 (witness): the no-`+` failure case at a concrete input. -/
theorem c6_parse_witness : parse_address_spec "Core0x1A2B" = none :=
  c6_parse.2.2 "Core0x1A2B" (by decide)

/-- C7: pointer-chain resolution is all-or-nothing and never propagates an
error — `resolve_pointer` is a total function into `Option`, and it returns
`some r` exactly when the module lookup succeeded, the base pointer read
succeeded, and every intermediate 8-byte read of the chase succeeded
(`Chased`), with `r` the last chased address plus the final offset; any
failure at any step therefore yields `none`, never a partial result. -/
theorem c7_all_or_nothing :
    ∀ (pm : Mem) (n : String) (b : Int) (offs : List Int) (r : Int),
      resolve_pointer pm n b offs = some r ↔
        ∃ mb bs a, pm.moduleBase n = some mb ∧
          pm.readBytes (mb + b) 8 = some bs ∧
          Chased pm ((fromBytesLE bs : Nat) : Int) offs.dropLast a ∧
          r = a + offs.getLast?.getD 0 := by
  intro pm n b offs r
  constructor
  · intro h
    cases hm : pm.moduleBase n with
    | none => simp [resolve_pointer, hm] at h
    | some mb =>
      cases hr : pm.readBytes (mb + b) 8 with
      | none => simp [resolve_pointer, hm, hr] at h
      | some bs =>
        cases hc : chase pm ((fromBytesLE bs : Nat) : Int) offs.dropLast with
        | none => simp [resolve_pointer, hm, hr, hc] at h
        | some addr =>
          simp only [resolve_pointer, hm, hr, hc] at h
          have hra : addr + offs.getLast?.getD 0 = r := by simpa using h
          exact ⟨mb, bs, addr, rfl, hr,
            (chase_eq_some_iff pm _ _ _).mp hc, hra.symm⟩
  · rintro ⟨mb, bs, a, hm, hr, hc, rfl⟩
    have hch := (chase_eq_some_iff pm _ _ _).mpr hc
    simp [resolve_pointer, hm, hr, hch]

/-- C7 (witness): the characterization instantiated at the concrete scenario
memory: resolving `Core+0x10` with offsets `[0x4, 0x8]` to `0x3008` exhibits
the fully successful chain. -/
theorem c7_all_or_nothing_witness :
    ∃ mb bs a, memC4.moduleBase "Core" = some mb ∧
      memC4.readBytes (mb + 0x10) 8 = some bs ∧
      Chased memC4 ((fromBytesLE bs : Nat) : Int) ([0x4, 0x8] : List Int).dropLast a ∧
      (0x3008 : Int) = a + ([0x4, 0x8] : List Int).getLast?.getD 0 :=
  (c7_all_or_nothing memC4 "Core" 0x10 [0x4, 0x8] 0x3008).mp (by decide)

/-- C8 (corrected by this counterexample): the claim states the cycle fails
with `NoConsensusError` exactly when zero addresses resolved. In `memB` the
single definition resolves to the non-zero address `0x5000`, but the 4-byte
value read there fails, so the results list is empty and the cycle
nevertheless reports no consensus — one address resolved, yet the failure
fires. -/
theorem c8_counterexample :
    resolve_pointer memB "Core" 0x10 [] = some 0x5000 ∧
    memB.readBytes 0x5000 4 = none ∧
    runCycle memB [⟨"Core", 0x10, []⟩] = CycleOutcome.noConsensus := by
  refine ⟨by decide, by decide, by decide⟩

/-- C8 (amended): the cycle reports no consensus exactly when its results
list — the addresses that resolved to a non-zero value AND whose 4-byte
value read succeeded — is empty, emitting no result in that case; and a
`StabilizedResult` is only produced when `total_resolved ≥ 1`. -/
theorem c8_consensus :
    ∀ (pm : Mem) (entries : List ChainDef),
      (runCycle pm entries = CycleOutcome.noConsensus ↔
        collectResults pm entries = []) ∧
      ∀ r : StabilizedResult,
        runCycle pm entries = CycleOutcome.success r →
          1 ≤ r.total_resolved := by
  intro pm entries
  refine ⟨runCycle_noConsensus_iff pm entries, ?_⟩
  intro r h
  rcases runCycle_success_elim pm entries r h with ⟨hne, hlen⟩
  rw [hlen]
  exact List.length_pos.mpr hne

/-- C9: one poll cycle is a pure function of the memory image and the loaded
definitions, so resolving the same unchanged memory twice yields identical
`StabilizedResult` values, field by field. -/
theorem c9_idempotent (pm : Mem) (entries : List ChainDef)
    (r₁ r₂ : StabilizedResult)
    (h1 : runCycle pm entries = CycleOutcome.success r₁)
    (h2 : runCycle pm entries = CycleOutcome.success r₂) :
    r₁.winning_address = r₂.winning_address ∧ r₁.value = r₂.value ∧
    r₁.agreement_count = r₂.agreement_count ∧
    r₁.total_resolved = r₂.total_resolved := by
  rw [h1] at h2
  injection h2 with h
  rw [h]
  exact ⟨rfl, rfl, rfl, rfl⟩

/-- C9 (witness): two runs of the cycle on the concrete image `memB` both
produce `⟨0x6000, 7, 1, 1⟩`, and the theorem applied there gives the
field-wise equalities. -/
theorem c9_idempotent_witness :
    runCycle memB entriesB = CycleOutcome.success ⟨0x6000, 7, 1, 1⟩ ∧
    ((⟨0x6000, 7, 1, 1⟩ : StabilizedResult).winning_address =
        (⟨0x6000, 7, 1, 1⟩ : StabilizedResult).winning_address ∧
      (⟨0x6000, 7, 1, 1⟩ : StabilizedResult).value =
        (⟨0x6000, 7, 1, 1⟩ : StabilizedResult).value ∧
      (⟨0x6000, 7, 1, 1⟩ : StabilizedResult).agreement_count =
        (⟨0x6000, 7, 1, 1⟩ : StabilizedResult).agreement_count ∧
      (⟨0x6000, 7, 1, 1⟩ : StabilizedResult).total_resolved =
        (⟨0x6000, 7, 1, 1⟩ : StabilizedResult).total_resolved) :=
  ⟨by decide, c9_idempotent memB entriesB _ _ (by decide) (by decide)⟩

/-- C10: a chain that resolves to the final address 0 is treated as
unresolved — the Python truthiness test `if addr:` drops it — so address 0
never appears in the cycle's results (hence neither in the tally nor in
`total_resolved`); concretely in `memD` the first definition resolves to
`some 0` yet the cycle's result counts only the other chain:
`total_resolved = 1`. -/
theorem c10_zero_excluded :
    (∀ (pm : Mem) (entries : List ChainDef),
      (collectResults pm entries).all (fun p => p.1 != 0) = true) ∧
    resolve_pointer memD "Core" 0x30 [] = some 0 ∧
    runCycle memD entriesD = CycleOutcome.success ⟨0x6000, 7, 1, 1⟩ := by
  refine ⟨?_, by decide, by decide⟩
  intro pm entries
  rw [List.all_eq_true]
  rintro ⟨a, v⟩ hm
  rcases (mem_collectResults pm entries a v).mp hm with ⟨d, _, _, h0, _⟩
  simpa using h0

end Phasmowatch
